import Mathlib

/-!
Verification of the Datetime repository: a strptime-style datetime parser.

Strings are modelled as `List Char` (Rust `&str` is UTF-8; Rust byte-level
operations such as `split_at`, `get(..n)` and `len` are modelled explicitly
through the UTF-8 byte width of each character).  Rust operations that can
panic (string slicing at a non-character-boundary, `todo!()`) are modelled
by an explicit `panic` outcome of the `PResult` type.
-/

/-- UTF-8 byte width of a character; models Rust `char::len_utf8`. -/
def charBytes (c : Char) : Nat :=
  if c.toNat < 0x80 then 1
  else if c.toNat < 0x800 then 2
  else if c.toNat < 0x10000 then 3
  else 4

/-- UTF-8 byte length of a string; models Rust `str::len`. -/
def utf8Len : List Char → Nat
  | [] => 0
  | c :: cs => charBytes c + utf8Len cs

/-- Models Rust `str::split_at (n)`: splits at byte index `n`; `none` means
the Rust code panics (byte index out of bounds or not a char boundary). -/
def splitAtBytes : List Char → Nat → Option (List Char × List Char)
  | s, 0 => some ([], s)
  | [], _ + 1 => none
  | c :: cs, n + 1 =>
    if charBytes c ≤ n + 1 then
      match splitAtBytes cs (n + 1 - charBytes c) with
      | some (p, r) => some (c :: p, r)
      | none => none
    else none

/-- Models Rust `str::get (..n)`: the prefix of byte length `n`, or `none`
when `n` is out of bounds or not a character boundary. -/
def byteGet (s : List Char) (n : Nat) : Option (List Char) :=
  (splitAtBytes s n).map (fun p => p.1)

/-- Models Rust `str::strip_prefix`. -/
def stripPfx : List Char → List Char → Option (List Char)
  | [], s => some s
  | _ :: _, [] => none
  | p :: ps, c :: cs => if p = c then stripPfx ps cs else none

/-- ASCII decimal digit test. -/
def isDigitCh (c : Char) : Bool := 48 ≤ c.toNat && c.toNat ≤ 57

/-- Numeric value of a list of decimal digit characters (base 10, big endian). -/
def digitsVal (ds : List Char) : Nat :=
  ds.foldl (fun a c => 10 * a + (c.toNat - 48)) 0

/-- All characters are decimal digits. -/
def allDigits (ds : List Char) : Bool := ds.all isDigitCh

/-- Parse a non-empty all-digit string. -/
def parseDigitsAll (ds : List Char) : Option Nat :=
  if allDigits ds then some (digitsVal ds) else none

/-- Models Rust `usize::from_str` (`str::parse::<usize>()`): an optional
leading `+` sign followed by at least one decimal digit. -/
def parseUsizeChars (s : List Char) : Option Nat :=
  match s with
  | [] => none
  | c :: rest =>
    if c = '+' then (if rest = [] then none else parseDigitsAll rest)
    else parseDigitsAll s

/-- The token type of the format lexer (src/lexer.rs `Token`). -/
inductive Token where
  | FullYear
  | HalfYear
  | FullMonth
  | WrittenMonth
  | Day
  | TwentyFourHourDay
  | TwelveHourDay
  | Hour
  | Minute
  | Second
  | Literal (pattern : List Char)
  | AmOrPm
deriving DecidableEq

/-- Lexer errors (src/lexer.rs `LexerError`); spans are `(offset, length)`
pairs of byte indices, mirroring `miette::SourceSpan`. -/
inductive LexerError where
  | InvalidFormat (src : List Char) (span : Nat × Nat)
  | InvalidWhitespace (span : Nat × Nat) (src : List Char)
  | UnexpectedEOF
deriving DecidableEq

/-- Interpreter errors (src/interpreter.rs `InterpreterError`). -/
inductive InterpreterError where
  | WrongSequence (expected unexpected src : List Char)
  | InputTooShort (expected unexpected : Nat) (src : List Char)
deriving DecidableEq

/-- Builder validation error (src/datetime.rs `DatetimeError`). -/
inductive DatetimeError where
  | InvalidValue (expected : List Char) (field : Token) (got : List Char)
      (src : Option (List Char))
deriving DecidableEq

/-- Union of all error kinds that can flow through `miette::Error`;
`intErr` stands for the wrapped `ParseIntError` of `str::parse::<usize>()`. -/
inductive RError where
  | lex (e : LexerError)
  | interp (e : InterpreterError)
  | dt (e : DatetimeError)
  | intErr
deriving DecidableEq

/-- Result of running a piece of Rust code: value, error, or panic. -/
inductive PResult (α : Type) where
  | ok (a : α)
  | err (e : RError)
  | panic
deriving DecidableEq

/-- The validated datetime value (src/datetime.rs `Datetime`). -/
structure Datetime where
  year : Nat
  month : Nat
  day : Nat
  hour : Nat
  minute : Nat
  second : Nat
deriving DecidableEq

/-- The accumulator (src/datetime.rs `DatetimeBuilder`). -/
structure DatetimeBuilder where
  year : Nat
  month : Nat
  day : Nat
  hour : Nat
  minute : Nat
  second : Nat
deriving DecidableEq

/-- `DatetimeBuilder::default()`: year 1900, month 1, day 1, 00:00:00. -/
def DatetimeBuilder.default : DatetimeBuilder :=
  { year := 1900, month := 1, day := 1, hour := 0, minute := 0, second := 0 }

/-- Setter `DatetimeBuilder::year` (named `setYear` as the Lean field
projection already uses the source name). -/
def DatetimeBuilder.setYear (b : DatetimeBuilder) (year : Nat) : DatetimeBuilder :=
  { b with year := year }

/-- Setter `DatetimeBuilder::month`. -/
def DatetimeBuilder.setMonth (b : DatetimeBuilder) (month : Nat) : DatetimeBuilder :=
  { b with month := month }

/-- Setter `DatetimeBuilder::day`. -/
def DatetimeBuilder.setDay (b : DatetimeBuilder) (day : Nat) : DatetimeBuilder :=
  { b with day := day }

/-- Setter `DatetimeBuilder::hour`. -/
def DatetimeBuilder.setHour (b : DatetimeBuilder) (hour : Nat) : DatetimeBuilder :=
  { b with hour := hour }

/-- Setter `DatetimeBuilder::minute`. -/
def DatetimeBuilder.setMinute (b : DatetimeBuilder) (minute : Nat) : DatetimeBuilder :=
  { b with minute := minute }

/-- Setter `DatetimeBuilder::second`. -/
def DatetimeBuilder.setSecond (b : DatetimeBuilder) (second : Nat) : DatetimeBuilder :=
  { b with second := second }

/-- src/datetime.rs `is_leap_year`. -/
def is_leap_year (year : Nat) : Bool :=
  (year % 4 == 0 && year % 100 != 0) || (year % 400 == 0)

/-- src/datetime.rs `days_in_month`. -/
def days_in_month (year month : Nat) : Option Nat :=
  if month = 1 ∨ month = 3 ∨ month = 5 ∨ month = 7 ∨ month = 8 ∨ month = 10 ∨ month = 12
    then some 31
  else if month = 4 ∨ month = 6 ∨ month = 9 ∨ month = 11 then some 30
  else if month = 2 then some (if is_leap_year year then 29 else 28)
  else none

/-- Decimal digit character for a value `< 10`. -/
def digitChar (d : Nat) : Char := Char.ofNat (48 + d)

/-- Worker for decimal rendering with explicit fuel. -/
def natDigitsGo : Nat → Nat → List Char → List Char
  | 0, _, acc => acc
  | fuel + 1, n, acc =>
    if n < 10 then digitChar (n % 10) :: acc
    else natDigitsGo fuel (n / 10) (digitChar (n % 10) :: acc)

/-- Decimal rendering of a natural number; models Rust `usize`
`Display`/`to_string`. -/
def natDigits (n : Nat) : List Char := natDigitsGo (n + 1) n []

/-- Models Rust format specifier `{:02}`: decimal, zero-padded to width 2. -/
def pad2 (n : Nat) : List Char :=
  if n < 10 then '0' :: natDigits n else natDigits n

/-- Message text `"A month between 1-12"` used by `build`. -/
def msgMonthRange : List Char := ("A month between 1-12").data

/-- Message text `"1-12"` used by `build`. -/
def msgOneTwelve : List Char := ("1-12").data

/-- Message text `"A day between 1-{max_days}"` used by `build`. -/
def msgDayRange (maxDays : Nat) : List Char :=
  ("A day between 1-").data ++ natDigits maxDays

/-- Message text `"0-23"` used by `build`. -/
def msgHourRange : List Char := ("0-23").data

/-- Message text `"0-60"` used by `build` for minute and second. -/
def msgZeroSixty : List Char := ("0-60").data

/-- src/datetime.rs `DatetimeBuilder::build`. -/
def build (b : DatetimeBuilder) : Except DatetimeError Datetime :=
  match days_in_month b.year b.month with
  | none =>
    .error (.InvalidValue msgMonthRange .FullMonth (natDigits b.month) none)
  | some max_days =>
    if b.month > 12 then
      .error (.InvalidValue msgOneTwelve .FullMonth (natDigits b.month) none)
    else if b.day = 0 ∨ b.day > max_days then
      .error (.InvalidValue (msgDayRange max_days) .Day (natDigits b.day) none)
    else if b.hour > 23 then
      .error (.InvalidValue msgHourRange .Hour (natDigits b.hour) none)
    else if b.minute > 59 then
      .error (.InvalidValue msgZeroSixty .Day (natDigits b.minute) none)
    else if b.second > 59 then
      .error (.InvalidValue msgZeroSixty .Second (natDigits b.second) none)
    else
      .ok { year := b.year, month := b.month, day := b.day,
            hour := b.hour, minute := b.minute, second := b.second }

/-- Lift the result of `build` into the parse outcome type. -/
def liftBuild (r : Except DatetimeError Datetime) : PResult Datetime :=
  match r with
  | .ok d => .ok d
  | .error e => .err (.dt e)

/-- src/datetime.rs `impl fmt::Display for Datetime`:
`"{:02}/{:02}/{:02} {:02}:{:02}:{:02}"` over day, month, year, hour,
minute, second. -/
def displayDatetime (d : Datetime) : List Char :=
  pad2 d.day ++ (['/'] ++ (pad2 d.month ++ (['/'] ++ (pad2 d.year ++
    ([' '] ++ (pad2 d.hour ++ ([':'] ++ (pad2 d.minute ++
    ([':'] ++ pad2 d.second)))))))))

/-- The lexer state (src/lexer.rs `DateTimeLexer`): the full pattern, the
remaining pattern, and the byte counter. -/
structure LexerState where
  input : List Char
  rest : List Char
  byte : Nat
deriving DecidableEq

/-- src/lexer.rs `DateTimeLexer::new`. -/
def mkLexer (src : List Char) : LexerState := { input := src, rest := src, byte := 0 }

/-- One step of the lexer iterator: end of pattern, a panic, an error item,
or a token item together with the successor state. -/
inductive LexStep where
  | done
  | panicL
  | lexErr (e : LexerError)
  | item (t : Token) (s : LexerState)
deriving DecidableEq

/-- Rust `char::is_ascii_whitespace`. -/
def isAsciiWs (c : Char) : Bool :=
  c = ' ' || c = '\t' || c = '\n' || c = Char.ofNat 12 || c = '\r'

/-- The specifier table of src/lexer.rs `DateTimeLexer::next` (the `match
ident` arms that produce a token): `Y y m B d H I M S p`. -/
def specifierToken (ident : Char) : Option Token :=
  if ident = 'Y' then some .FullYear
  else if ident = 'y' then some .HalfYear
  else if ident = 'm' then some .FullMonth
  else if ident = 'B' then some .WrittenMonth
  else if ident = 'd' then some .Day
  else if ident = 'H' then some .TwentyFourHourDay
  else if ident = 'I' then some .TwelveHourDay
  else if ident = 'M' then some .Minute
  else if ident = 'S' then some .Second
  else if ident = 'p' then some .AmOrPm
  else none

/-- src/lexer.rs `impl Iterator for DateTimeLexer`, `fn next`.  The `%`
branch slices `self.rest[1..]` after reading the specifier character, which
panics when that character is multi-byte (`panicL`).  The byte counter
updates replicate the source exactly (the specifier byte is never added;
a literal run adds its first character twice). -/
def lexNext (s : LexerState) : LexStep :=
  match s.rest with
  | [] => .done
  | next :: chars =>
    let b1 := s.byte + charBytes next
    if next = '%' then
      match chars with
      | [] => .lexErr .UnexpectedEOF
      | ident :: rest2 =>
        if charBytes ident = 1 then
          match specifierToken ident with
          | some t => .item t { input := s.input, rest := rest2, byte := b1 }
          | none =>
            if isAsciiWs ident then
              .lexErr (.InvalidWhitespace
                (b1 - charBytes next, charBytes next + charBytes ident) s.input)
            else
              .lexErr (.InvalidFormat s.input
                (b1 - charBytes next, charBytes next + charBytes ident))
        else .panicL
    else
      let pat := next :: chars.takeWhile (fun c => c ≠ '%')
      .item (.Literal pat)
        { input := s.input, rest := s.rest.drop pat.length, byte := b1 + utf8Len pat }

/-- src/interpreter.rs `parse_digits`. -/
def parse_digits (input : List Char) (width : Nat) : PResult (Nat × List Char) :=
  if utf8Len input < width then
    .err (.interp (.InputTooShort width (utf8Len input) input))
  else
    match splitAtBytes input width with
    | none => .panic
    | some (part, rest) =>
      match parseUsizeChars part with
      | none => .err .intErr
      | some n => .ok (n, rest)

/-- Rust `str::starts_with` for a two-character ASCII needle. -/
def startsWith2 (a b : Char) : List Char → Bool
  | x :: y :: _ => x = a && y = b
  | _ => false

/-- The expected-text `"AM or PM"` of the `AmOrPm` mismatch error. -/
def amOrPmExpected : List Char := ("AM or PM").data

/-- Processing of one token inside `Interpreter::parse_datetime`
(the `match token` arm bodies of src/interpreter.rs).  `orig` is
`original_input`; the result is the remaining input and updated builder.
The `todo!()` catch-all arm (reached by `WrittenMonth` and `Hour`) is a
panic. -/
def stepToken (orig : List Char) (t : Token) (input : List Char)
    (b : DatetimeBuilder) : PResult (List Char × DatetimeBuilder) :=
  match t with
  | .FullYear =>
    match parse_digits input 4 with
    | .ok (year, rest) => .ok (rest, b.setYear year)
    | .err e => .err e
    | .panic => .panic
  | .HalfYear =>
    match parse_digits input 2 with
    | .ok (y, rest) => .ok (rest, b.setYear (if y < 25 then y + 2000 else y + 1900))
    | .err e => .err e
    | .panic => .panic
  | .FullMonth =>
    match parse_digits input 2 with
    | .ok (mes, rest) => .ok (rest, b.setMonth mes)
    | .err e => .err e
    | .panic => .panic
  | .Day =>
    match parse_digits input 2 with
    | .ok (day, rest) => .ok (rest, b.setDay day)
    | .err e => .err e
    | .panic => .panic
  | .TwelveHourDay =>
    match parse_digits input 2 with
    | .ok (hour, rest) => .ok (rest, b.setHour hour)
    | .err e => .err e
    | .panic => .panic
  | .TwentyFourHourDay =>
    match parse_digits input 2 with
    | .ok (hour, rest) => .ok (rest, b.setHour hour)
    | .err e => .err e
    | .panic => .panic
  | .AmOrPm =>
    let hour := b.hour
    if startsWith2 'P' 'M' input then
      if hour < 12 then .ok (input.drop 2, b.setHour (hour + 12))
      else .ok (input.drop 2, b)
    else if startsWith2 'A' 'M' input then
      if hour = 12 then .ok (input.drop 2, b.setHour 0)
      else .ok (input.drop 2, b)
    else
      .err (.interp (.WrongSequence amOrPmExpected ((byteGet input 2).getD input) orig))
  | .Minute =>
    match parse_digits input 2 with
    | .ok (minute, rest) => .ok (rest, b.setMinute minute)
    | .err e => .err e
    | .panic => .panic
  | .Second =>
    match parse_digits input 2 with
    | .ok (second, rest) => .ok (rest, b.setSecond second)
    | .err e => .err e
    | .panic => .panic
  | .Literal pattern =>
    match stripPfx pattern input with
    | some rest => .ok (rest, b)
    | none =>
      .err (.interp (.WrongSequence pattern
        ((byteGet input (utf8Len pattern)).getD input) orig))
  | .WrittenMonth => .panic
  | .Hour => .panic

/-- The interpreter loop of `Interpreter::parse_datetime`, with fuel for
structural recursion.  The fuel supplied by `parse_datetime` always
strictly exceeds the number of lexer steps (each step consumes at least
one pattern character), so the fuel-exhausted branch is unreachable. -/
def interpGo (orig : List Char) : Nat → LexerState → List Char → DatetimeBuilder →
    PResult Datetime
  | 0, _, _, _ => .panic
  | fuel + 1, s, input, b =>
    match lexNext s with
    | .done => liftBuild (build b)
    | .panicL => .panic
    | .lexErr e => .err (.lex e)
    | .item t s2 =>
      match stepToken orig t input b with
      | .ok (input2, b2) => interpGo orig fuel s2 input2 b2
      | .err e => .err e
      | .panic => .panic

/-- src/interpreter.rs `Interpreter::parse_datetime`. -/
def parse_datetime (input expected_format : List Char) : PResult Datetime :=
  interpGo input (expected_format.length + 1) (mkLexer expected_format) input
    DatetimeBuilder.default

/-- The fixed candidate list `COMMON_FORMATS` of `Datetime::try_guess`
(src/datetime.rs), in source order, duplicates included. -/
def COMMON_FORMATS : List (List Char) :=
  [("%Y/%m/%d").data,
   ("%Y-%m-%d").data,
   ("%Y/%d/%m").data,
   ("%Y/%d/%m").data,
   ("%y/%m/%d").data,
   ("%y-%m-%d").data,
   ("%y/%d/%m").data,
   ("%y/%d/%m").data,
   ("%H:%M:%S").data,
   ("%Hh:%Mm:%Ss").data,
   ("%H %p:%M:%S").data,
   ("%H %p:%M:%S").data,
   ("%H:%M").data,
   ("%Hh:%Mm").data,
   ("%H:%M %p").data]

/-- Outcome of `Datetime::try_guess`: first success, no candidate matched,
or a propagated panic. -/
inductive GuessResult where
  | found (d : Datetime)
  | nothing
  | panicG
deriving DecidableEq

/-- The candidate loop of `Datetime::try_guess`. -/
def tryGuessLoop : List (List Char) → List Char → GuessResult
  | [], _ => .nothing
  | f :: fs, date =>
    match parse_datetime date f with
    | .ok d => .found d
    | .err _ => tryGuessLoop fs date
    | .panic => .panicG

/-- src/datetime.rs `Datetime::try_guess`. -/
def try_guess (date : List Char) : GuessResult := tryGuessLoop COMMON_FORMATS date

/-- The format pattern `"%d/%m/%Y %H:%M:%S"` of the round-trip claim. -/
def fmtDMY : List Char := ("%d/%m/%Y %H:%M:%S").data

/-- Error classifier: is the outcome an `InputTooShort` interpreter error. -/
def isInputTooShortR : PResult Datetime → Bool
  | .err (.interp (.InputTooShort _ _ _)) => true
  | _ => false

/-- Outcome classifier: is the outcome any error. -/
def isErrR : PResult Datetime → Bool
  | .err _ => true
  | _ => false

/-- Every character is a single UTF-8 byte. -/
def allAsciiB (s : List Char) : Bool := s.all (fun c => charBytes c = 1)

/-- The pattern contains no `%B` specifier (whose interpreter arm is an
unimplemented `todo!()`): no `'%'` immediately followed by `'B'`. -/
def noPB : List Char → Bool
  | [] => true
  | [_] => true
  | a :: b :: rest => !(a = '%' && b = 'B') && noPB (b :: rest)

/-- The calendar-validity predicate of claim C1. -/
def validDt (d : Datetime) : Prop :=
  1 ≤ d.month ∧ d.month ≤ 12 ∧ 1 ≤ d.day ∧
  (∃ mx, days_in_month d.year d.month = some mx ∧ d.day ≤ mx) ∧
  d.hour ≤ 23 ∧ d.minute ≤ 59 ∧ d.second ≤ 59

/- Sanity examples (concrete evaluations of the embedding). -/

example : parse_datetime (("2023-10-15").data) (("%Y-%m-%d").data) =
    .ok { year := 2023, month := 10, day := 15, hour := 0, minute := 0, second := 0 } := by
  decide

example : parse_datetime (("15/10/2023").data) (("%d/%m/%Y").data) =
    .ok { year := 2023, month := 10, day := 15, hour := 0, minute := 0, second := 0 } := by
  decide

example : parse_datetime (("03:45:20 PM").data) (("%I:%M:%S %p").data) =
    .ok { year := 1900, month := 1, day := 1, hour := 15, minute := 45, second := 20 } := by
  decide

/-! ## Helper lemmas -/

theorem isDigitCh_charBytes {c : Char} (h : isDigitCh c = true) : charBytes c = 1 := by
  simp only [isDigitCh, Bool.and_eq_true, decide_eq_true_eq] at h
  have h128 : c.toNat < 0x80 := by omega
  simp [charBytes, h128]

theorem utf8Len_append (p r : List Char) : utf8Len (p ++ r) = utf8Len p + utf8Len r := by
  induction p with
  | nil => simp [utf8Len]
  | cons c cs ih => simp [utf8Len, ih]; omega

theorem utf8Len_eq_length {p : List Char} (h : ∀ c ∈ p, charBytes c = 1) :
    utf8Len p = p.length := by
  induction p with
  | nil => rfl
  | cons c cs ih =>
    simp only [utf8Len, List.length_cons]
    rw [h c (by simp), ih (fun x hx => h x (by simp [hx]))]
    omega

theorem splitAtBytes_some {s : List Char} {n : Nat} {p r : List Char}
    (h : splitAtBytes s n = some (p, r)) : s = p ++ r ∧ utf8Len p = n := by
  induction s generalizing n p r with
  | nil =>
    cases n with
    | zero =>
      simp only [splitAtBytes, Option.some.injEq, Prod.mk.injEq] at h
      obtain ⟨h1, h2⟩ := h
      subst h1; subst h2
      simp [utf8Len]
    | succ m => simp [splitAtBytes] at h
  | cons c cs ih =>
    cases n with
    | zero =>
      simp only [splitAtBytes, Option.some.injEq, Prod.mk.injEq] at h
      obtain ⟨h1, h2⟩ := h
      subst h1; subst h2
      simp [utf8Len]
    | succ m =>
      simp only [splitAtBytes] at h
      split at h
      · rename_i hle
        cases hrec : splitAtBytes cs (m + 1 - charBytes c) with
        | none => rw [hrec] at h; simp at h
        | some pr =>
          obtain ⟨p2, r2⟩ := pr
          rw [hrec] at h
          simp only [Option.some.injEq, Prod.mk.injEq] at h
          obtain ⟨hp, hr⟩ := h
          obtain ⟨hs, hlen⟩ := ih hrec
          subst hp hr
          constructor
          · simp [hs]
          · simp only [utf8Len]
            omega
      · simp at h

theorem splitAtBytes_exact {p : List Char} (r : List Char)
    (h : ∀ c ∈ p, charBytes c = 1) :
    splitAtBytes (p ++ r) p.length = some (p, r) := by
  induction p with
  | nil => simp [splitAtBytes]
  | cons c cs ih =>
    have hc : charBytes c = 1 := h c (by simp)
    simp only [List.cons_append, List.length_cons, splitAtBytes]
    rw [hc]
    simp only [Nat.le_add_left, if_pos]
    have heq : cs.length + 1 - 1 = cs.length := by omega
    rw [heq]
    simp only [List.append_eq] at *
    rw [ih (fun x hx => h x (by simp [hx]))]

theorem stripPfx_append (p r : List Char) : stripPfx p (p ++ r) = some r := by
  induction p with
  | nil => simp [stripPfx]
  | cons c cs ih => simp [stripPfx, ih]

theorem allDigits_charBytes {p : List Char} (h : allDigits p = true) :
    ∀ c ∈ p, charBytes c = 1 := by
  intro c hc
  have := (List.all_eq_true.mp h) c hc
  exact isDigitCh_charBytes this

theorem parseUsizeChars_ascii {p : List Char} {y : Nat}
    (h : parseUsizeChars p = some y) : ∀ c ∈ p, charBytes c = 1 := by
  cases p with
  | nil => simp [parseUsizeChars] at h
  | cons c rest =>
    simp only [parseUsizeChars] at h
    split at h
    · rename_i hplus
      subst hplus
      split at h
      · simp at h
      · simp only [parseDigitsAll] at h
        split at h
        · rename_i hall
          intro x hx
          rcases List.mem_cons.mp hx with hx | hx
          · subst hx; simp [charBytes]
          · exact allDigits_charBytes hall x hx
        · simp at h
    · simp only [parseDigitsAll] at h
      split at h
      · rename_i hall
        exact allDigits_charBytes hall
      · simp at h

theorem parse_digits_ok_shape {input : List Char} {w y : Nat} {rest : List Char}
    (h : parse_digits input w = .ok (y, rest)) :
    ∃ part, splitAtBytes input w = some (part, rest) ∧ parseUsizeChars part = some y := by
  simp only [parse_digits] at h
  split at h
  · simp at h
  · split at h
    · simp at h
    · rename_i part rest2 hsp
      split at h
      · simp at h
      · rename_i n hpu
        simp only [PResult.ok.injEq, Prod.mk.injEq] at h
        refine ⟨part, ?_, ?_⟩
        · rw [hsp, h.2]
        · rw [hpu, h.1]

theorem natDigitsGo_succ (fuel n : Nat) (acc : List Char) :
    natDigitsGo (fuel + 1) n acc =
      if n < 10 then digitChar (n % 10) :: acc
      else natDigitsGo fuel (n / 10) (digitChar (n % 10) :: acc) := rfl

theorem natDigits_small {n : Nat} (h : n < 10) : natDigits n = [digitChar n] := by
  show natDigitsGo (n + 1) n [] = _
  rw [natDigitsGo_succ, if_pos h, Nat.mod_eq_of_lt h]

theorem natDigitsGo_acc (n : Nat) : ∀ fuel acc, n < fuel →
    natDigitsGo fuel n acc = natDigits n ++ acc := by
  induction n using Nat.strong_induction_on with
  | _ n ih =>
    intro fuel acc hf
    obtain ⟨f, rfl⟩ : ∃ f, fuel = f + 1 := ⟨fuel - 1, by omega⟩
    rw [natDigitsGo_succ]
    by_cases h10 : n < 10
    · rw [if_pos h10, Nat.mod_eq_of_lt h10, natDigits_small h10]
      rfl
    · have hdivlt : n / 10 < n := Nat.div_lt_self (by omega) (by omega)
      rw [if_neg h10]
      rw [ih (n / 10) hdivlt f (digitChar (n % 10) :: acc) (by omega)]
      have hrhs : natDigits n = natDigits (n / 10) ++ [digitChar (n % 10)] := by
        show natDigitsGo (n + 1) n [] = _
        rw [natDigitsGo_succ, if_neg h10]
        rw [ih (n / 10) hdivlt n [digitChar (n % 10)] (by omega)]
      rw [hrhs, List.append_assoc]
      rfl

theorem natDigits_step {n : Nat} (h : 10 ≤ n) :
    natDigits n = natDigits (n / 10) ++ [digitChar (n % 10)] := by
  show natDigitsGo (n + 1) n [] = _
  rw [natDigitsGo_succ, if_neg (by omega : ¬ n < 10)]
  exact natDigitsGo_acc (n / 10) n [digitChar (n % 10)]
    (lt_of_lt_of_le (Nat.div_lt_self (by omega) (by omega)) (by omega))

theorem digitChar_isDigit {d : Nat} (h : d < 10) : isDigitCh (digitChar d) = true := by
  interval_cases d <;> decide

theorem digitChar_toNat {d : Nat} (h : d < 10) : (digitChar d).toNat = 48 + d := by
  interval_cases d <;> decide

theorem natDigits_allDigits (n : Nat) : allDigits (natDigits n) = true := by
  induction n using Nat.strong_induction_on with
  | _ n ih =>
    by_cases h10 : n < 10
    · rw [natDigits_small h10]
      simp [allDigits, digitChar_isDigit h10]
    · rw [natDigits_step (by omega)]
      have h1 := ih (n / 10) (Nat.div_lt_self (by omega) (by omega))
      simp only [allDigits, List.all_append] at *
      simp [h1, digitChar_isDigit (Nat.mod_lt n (by omega))]

theorem digitsVal_append_one (ds : List Char) (c : Char) :
    digitsVal (ds ++ [c]) = 10 * digitsVal ds + (c.toNat - 48) := by
  simp [digitsVal, List.foldl_append]

theorem digitsVal_natDigits (n : Nat) : digitsVal (natDigits n) = n := by
  induction n using Nat.strong_induction_on with
  | _ n ih =>
    by_cases h10 : n < 10
    · rw [natDigits_small h10]
      simp only [digitsVal, List.foldl_cons, List.foldl_nil]
      rw [digitChar_toNat h10]
      omega
    · rw [natDigits_step (by omega), digitsVal_append_one,
        ih (n / 10) (Nat.div_lt_self (by omega) (by omega)),
        digitChar_toNat (Nat.mod_lt n (by omega))]
      omega

theorem natDigits_length_pow : ∀ (k n : Nat), 10 ^ k ≤ n → n < 10 ^ (k + 1) →
    (natDigits n).length = k + 1 := by
  intro k
  induction k with
  | zero =>
    intro n h1 h2
    rw [natDigits_small (by simpa using h2)]
    rfl
  | succ j ih =>
    intro n h1 h2
    have hbase : (10 : Nat) ≤ 10 ^ (j + 1) := by
      have hp := Nat.pow_le_pow_right (show 1 ≤ 10 by norm_num)
        (show 1 ≤ j + 1 by omega)
      simpa using hp
    have h10 : 10 ≤ n := le_trans hbase h1
    rw [natDigits_step h10]
    have hlo : 10 ^ j ≤ n / 10 := by
      rw [Nat.le_div_iff_mul_le (by omega)]
      calc 10 ^ j * 10 = 10 ^ (j + 1) := by ring
        _ ≤ n := h1
    have hhi : n / 10 < 10 ^ (j + 1) := by
      rw [Nat.div_lt_iff_lt_mul (by omega)]
      calc n < 10 ^ (j + 1 + 1) := h2
        _ = 10 ^ (j + 1) * 10 := by ring
    rw [List.length_append, ih (n / 10) hlo hhi]
    rfl

theorem pad2_spec {v : Nat} (h : v < 100) :
    (pad2 v).length = 2 ∧ allDigits (pad2 v) = true ∧ digitsVal (pad2 v) = v := by
  by_cases h10 : v < 10
  · simp only [pad2, if_pos h10]
    rw [natDigits_small h10]
    have h0d : isDigitCh '0' = true := by decide
    have h0n : ('0').toNat = 48 := by decide
    refine ⟨rfl, ?_, ?_⟩
    · simp [allDigits, h0d, digitChar_isDigit h10]
    · simp only [digitsVal, List.foldl_cons, List.foldl_nil]
      rw [digitChar_toNat h10, h0n]
      omega
  · simp only [pad2, if_neg h10]
    refine ⟨?_, natDigits_allDigits v, digitsVal_natDigits v⟩
    have := natDigits_length_pow 1 v (by omega) (by norm_num; omega)
    simpa using this

theorem parseUsizeChars_digits {p : List Char} (hall : allDigits p = true)
    (hne : p ≠ []) : parseUsizeChars p = some (digitsVal p) := by
  cases p with
  | nil => exact absurd rfl hne
  | cons c rest =>
    have hc : isDigitCh c = true := (List.all_eq_true.mp hall) c (by simp)
    have hcp : ¬ c = '+' := by
      intro hcp
      subst hcp
      simp [isDigitCh] at hc
    simp only [parseUsizeChars, if_neg hcp, parseDigitsAll, if_pos hall]

theorem parse_digits_exact {p : List Char} (r : List Char) {w : Nat}
    (hlen : p.length = w) (hall : allDigits p = true) (hne : p ≠ []) :
    parse_digits (p ++ r) w = .ok (digitsVal p, r) := by
  have hascii : ∀ c ∈ p, charBytes c = 1 := allDigits_charBytes hall
  have hplen : utf8Len p = w := by rw [utf8Len_eq_length hascii, hlen]
  have hsplit : splitAtBytes (p ++ r) w = some (p, r) := by
    rw [← hlen]
    exact splitAtBytes_exact r hascii
  have hlong : ¬ utf8Len (p ++ r) < w := by
    rw [utf8Len_append]
    omega
  simp only [parse_digits, if_neg hlong, hsplit, parseUsizeChars_digits hall hne]

theorem days_in_month_bounds {y m mx : Nat} (h : days_in_month y m = some mx) :
    1 ≤ m ∧ m ≤ 12 ∧ mx ≤ 31 := by
  simp only [days_in_month] at h
  split at h
  · simp at h; omega
  · split at h
    · simp at h; omega
    · split at h
      · rename_i hm2
        subst hm2
        split at h <;> (simp at h; omega)
      · simp at h

theorem build_ok_iff {b : DatetimeBuilder} {d : Datetime} (h : build b = .ok d) :
    d.year = b.year ∧ d.month = b.month ∧ d.day = b.day ∧ d.hour = b.hour ∧
    d.minute = b.minute ∧ d.second = b.second ∧
    (∃ mx, days_in_month b.year b.month = some mx ∧ 1 ≤ b.day ∧ b.day ≤ mx) ∧
    b.hour ≤ 23 ∧ b.minute ≤ 59 ∧ b.second ≤ 59 := by
  simp only [build] at h
  split at h
  · simp at h
  · rename_i mx hmx
    split at h
    · simp at h
    · split at h
      · simp at h
      · rename_i hday
        split at h
        · simp at h
        · split at h
          · simp at h
          · split at h
            · simp at h
            · rename_i hm12 hd hh hmi hs
              simp only [Except.ok.injEq] at h
              cases h
              push_neg at hday
              refine ⟨rfl, rfl, rfl, rfl, rfl, rfl, ⟨mx, hmx, ?_, ?_⟩, by omega, by omega, by omega⟩
              · omega
              · omega

theorem build_ok_of_valid (b : DatetimeBuilder) (mx : Nat)
    (hmx : days_in_month b.year b.month = some mx)
    (hd1 : 1 ≤ b.day) (hd2 : b.day ≤ mx)
    (hh : b.hour ≤ 23) (hmi : b.minute ≤ 59) (hs : b.second ≤ 59) :
    build b = .ok (Datetime.mk b.year b.month b.day b.hour b.minute b.second) := by
  have hm12 : b.month ≤ 12 := (days_in_month_bounds hmx).2.1
  simp only [build, hmx]
  rw [if_neg (by omega), if_neg (by omega), if_neg (by omega), if_neg (by omega),
    if_neg (by omega)]

theorem lexNext_item_lt {s : LexerState} {t : Token} {s2 : LexerState}
    (h : lexNext s = .item t s2) : s2.rest.length < s.rest.length := by
  cases hr : s.rest with
  | nil => simp [lexNext, hr] at h
  | cons next chars =>
    simp only [lexNext, hr] at h
    by_cases hp : next = '%'
    · rw [if_pos hp] at h
      cases chars with
      | nil => exact LexStep.noConfusion h
      | cons ident rest2 =>
        dsimp only at h
        by_cases hw : charBytes ident = 1
        · rw [if_pos hw] at h
          cases hspec : specifierToken ident with
          | some tk =>
            rw [hspec] at h
            dsimp only at h
            injection h with h1 h2
            subst h2
            simp only [List.length_cons]
            omega
          | none =>
            rw [hspec] at h
            dsimp only at h
            by_cases hws : isAsciiWs ident = true
            · rw [if_pos hws] at h
              exact LexStep.noConfusion h
            · rw [if_neg hws] at h
              exact LexStep.noConfusion h
        · rw [if_neg hw] at h
          exact LexStep.noConfusion h
    · rw [if_neg hp] at h
      injection h with h1 h2
      subst h2
      simp only [List.length_drop, List.length_cons]
      omega

theorem interp_step {orig : List Char} {f g : Nat} {s s2 : LexerState} {t : Token}
    {input input2 : List Char} {b b2 : DatetimeBuilder}
    (hf : f = g + 1) (hl : lexNext s = .item t s2)
    (hs : stepToken orig t input b = .ok (input2, b2)) :
    interpGo orig f s input b = interpGo orig g s2 input2 b2 := by
  subst hf
  simp only [interpGo, hl, hs]

theorem interp_done {orig : List Char} {f g : Nat} {s : LexerState}
    {input : List Char} {b : DatetimeBuilder}
    (hf : f = g + 1) (hl : lexNext s = .done) :
    interpGo orig f s input b = liftBuild (build b) := by
  subst hf
  simp only [interpGo, hl]

theorem interpGo_ok_build {orig : List Char} : ∀ (f : Nat) (s : LexerState)
    (input : List Char) (b : DatetimeBuilder) (d : Datetime),
    interpGo orig f s input b = .ok d → ∃ b2, build b2 = .ok d := by
  intro f
  induction f with
  | zero =>
    intro s input b d h
    simp [interpGo] at h
  | succ g ih =>
    intro s input b d h
    simp only [interpGo] at h
    split at h
    · rename_i hl
      refine ⟨b, ?_⟩
      cases hb : build b with
      | ok x =>
        rw [hb] at h
        simp only [liftBuild, PResult.ok.injEq] at h
        rw [h]
      | error e =>
        rw [hb] at h
        simp [liftBuild] at h
    · simp at h
    · simp at h
    · rename_i t s2 hl
      split at h
      · exact ih s2 _ _ d h
      · simp at h
      · simp at h

theorem stepToken_day {orig input : List Char} {b : DatetimeBuilder} {v : Nat}
    {rest : List Char} (h : parse_digits input 2 = .ok (v, rest)) :
    stepToken orig .Day input b = .ok (rest, b.setDay v) := by
  simp only [stepToken, h]

theorem stepToken_month {orig input : List Char} {b : DatetimeBuilder} {v : Nat}
    {rest : List Char} (h : parse_digits input 2 = .ok (v, rest)) :
    stepToken orig .FullMonth input b = .ok (rest, b.setMonth v) := by
  simp only [stepToken, h]

theorem stepToken_year {orig input : List Char} {b : DatetimeBuilder} {v : Nat}
    {rest : List Char} (h : parse_digits input 4 = .ok (v, rest)) :
    stepToken orig .FullYear input b = .ok (rest, b.setYear v) := by
  simp only [stepToken, h]

theorem stepToken_hour24 {orig input : List Char} {b : DatetimeBuilder} {v : Nat}
    {rest : List Char} (h : parse_digits input 2 = .ok (v, rest)) :
    stepToken orig .TwentyFourHourDay input b = .ok (rest, b.setHour v) := by
  simp only [stepToken, h]

theorem stepToken_minute {orig input : List Char} {b : DatetimeBuilder} {v : Nat}
    {rest : List Char} (h : parse_digits input 2 = .ok (v, rest)) :
    stepToken orig .Minute input b = .ok (rest, b.setMinute v) := by
  simp only [stepToken, h]

theorem stepToken_second {orig input : List Char} {b : DatetimeBuilder} {v : Nat}
    {rest : List Char} (h : parse_digits input 2 = .ok (v, rest)) :
    stepToken orig .Second input b = .ok (rest, b.setSecond v) := by
  simp only [stepToken, h]

theorem stepToken_literal (orig pat rest : List Char) (b : DatetimeBuilder) :
    stepToken orig (.Literal pat) (pat ++ rest) b = .ok (rest, b) := by
  simp only [stepToken, stripPfx_append]

theorem parse_digits_pad2 {v : Nat} (hv : v < 100) (r : List Char) :
    parse_digits (pad2 v ++ r) 2 = .ok (v, r) := by
  obtain ⟨h1, h2, h3⟩ := pad2_spec hv
  have hne : pad2 v ≠ [] := by
    intro hc
    rw [hc] at h1
    simp at h1
  have h4 := parse_digits_exact r h1 h2 hne
  rw [h3] at h4
  exact h4

theorem parse_digits_year {y : Nat} (h1 : 1000 ≤ y) (h2 : y ≤ 9999) (r : List Char) :
    parse_digits (natDigits y ++ r) 4 = .ok (y, r) := by
  have hlen : (natDigits y).length = 4 :=
    natDigits_length_pow 3 y (by norm_num; omega) (by norm_num; omega)
  have hne : natDigits y ≠ [] := by
    intro hc
    rw [hc] at hlen
    simp at hlen
  have h4 := parse_digits_exact r hlen (natDigits_allDigits y) hne
  rw [digitsVal_natDigits] at h4
  exact h4

theorem lexDMY0 : lexNext (mkLexer fmtDMY) =
    .item .Day (LexerState.mk fmtDMY (("/%m/%Y %H:%M:%S").data) 1) := rfl

theorem lexDMY1 : lexNext (LexerState.mk fmtDMY (("/%m/%Y %H:%M:%S").data) 1) =
    .item (.Literal ['/']) (LexerState.mk fmtDMY (("%m/%Y %H:%M:%S").data) 3) := rfl

theorem lexDMY2 : lexNext (LexerState.mk fmtDMY (("%m/%Y %H:%M:%S").data) 3) =
    .item .FullMonth (LexerState.mk fmtDMY (("/%Y %H:%M:%S").data) 4) := rfl

theorem lexDMY3 : lexNext (LexerState.mk fmtDMY (("/%Y %H:%M:%S").data) 4) =
    .item (.Literal ['/']) (LexerState.mk fmtDMY (("%Y %H:%M:%S").data) 6) := rfl

theorem lexDMY4 : lexNext (LexerState.mk fmtDMY (("%Y %H:%M:%S").data) 6) =
    .item .FullYear (LexerState.mk fmtDMY ((" %H:%M:%S").data) 7) := rfl

theorem lexDMY5 : lexNext (LexerState.mk fmtDMY ((" %H:%M:%S").data) 7) =
    .item (.Literal [' ']) (LexerState.mk fmtDMY (("%H:%M:%S").data) 9) := rfl

theorem lexDMY6 : lexNext (LexerState.mk fmtDMY (("%H:%M:%S").data) 9) =
    .item .TwentyFourHourDay (LexerState.mk fmtDMY ((":%M:%S").data) 10) := rfl

theorem lexDMY7 : lexNext (LexerState.mk fmtDMY ((":%M:%S").data) 10) =
    .item (.Literal [':']) (LexerState.mk fmtDMY (("%M:%S").data) 12) := rfl

theorem lexDMY8 : lexNext (LexerState.mk fmtDMY (("%M:%S").data) 12) =
    .item .Minute (LexerState.mk fmtDMY ((":%S").data) 13) := rfl

theorem lexDMY9 : lexNext (LexerState.mk fmtDMY ((":%S").data) 13) =
    .item (.Literal [':']) (LexerState.mk fmtDMY (("%S").data) 15) := rfl

theorem lexDMY10 : lexNext (LexerState.mk fmtDMY (("%S").data) 15) =
    .item .Second (LexerState.mk fmtDMY [] 16) := rfl

theorem lexDMY11 : lexNext (LexerState.mk fmtDMY [] 16) = .done := rfl

theorem parse_display_roundtrip (y mo d ho mi sec mx : Nat)
    (hy1 : 1000 ≤ y) (hy2 : y ≤ 9999) (hmx : days_in_month y mo = some mx)
    (hd1 : 1 ≤ d) (hd2 : d ≤ mx) (hh : ho ≤ 23) (hm2 : mi ≤ 59) (hs2 : sec ≤ 59) :
    parse_datetime (displayDatetime (Datetime.mk y mo d ho mi sec)) fmtDMY =
      .ok (Datetime.mk y mo d ho mi sec) := by
  obtain ⟨hb1, hb2, hb3⟩ := days_in_month_bounds hmx
  have hyd : pad2 y = natDigits y := by
    unfold pad2
    rw [if_neg (by omega)]
  simp only [parse_datetime, displayDatetime]
  rw [hyd]
  rw [interp_step (show fmtDMY.length + 1 = 17 + 1 from rfl) lexDMY0
      (stepToken_day (parse_digits_pad2 (by omega) _))]
  rw [interp_step (show (17 : Nat) = 16 + 1 from rfl) lexDMY1 (stepToken_literal _ _ _ _)]
  rw [interp_step (show (16 : Nat) = 15 + 1 from rfl) lexDMY2
      (stepToken_month (parse_digits_pad2 (by omega) _))]
  rw [interp_step (show (15 : Nat) = 14 + 1 from rfl) lexDMY3 (stepToken_literal _ _ _ _)]
  rw [interp_step (show (14 : Nat) = 13 + 1 from rfl) lexDMY4
      (stepToken_year (parse_digits_year hy1 hy2 _))]
  rw [interp_step (show (13 : Nat) = 12 + 1 from rfl) lexDMY5 (stepToken_literal _ _ _ _)]
  rw [interp_step (show (12 : Nat) = 11 + 1 from rfl) lexDMY6
      (stepToken_hour24 (parse_digits_pad2 (by omega) _))]
  rw [interp_step (show (11 : Nat) = 10 + 1 from rfl) lexDMY7 (stepToken_literal _ _ _ _)]
  rw [interp_step (show (10 : Nat) = 9 + 1 from rfl) lexDMY8
      (stepToken_minute (parse_digits_pad2 (by omega) _))]
  rw [interp_step (show (9 : Nat) = 8 + 1 from rfl) lexDMY9 (stepToken_literal _ _ _ _)]
  have hsec : parse_digits (pad2 sec) 2 = .ok (sec, []) := by
    have h5 := parse_digits_pad2 (show sec < 100 by omega) ([] : List Char)
    rwa [List.append_nil] at h5
  rw [interp_step (show (8 : Nat) = 7 + 1 from rfl) lexDMY10 (stepToken_second hsec)]
  rw [interp_done (show (7 : Nat) = 6 + 1 from rfl) lexDMY11]
  have hbf : (((((DatetimeBuilder.default.setDay d).setMonth mo).setYear
      y).setHour ho).setMinute mi).setSecond sec
      = DatetimeBuilder.mk y mo d ho mi sec := rfl
  rw [hbf, build_ok_of_valid (DatetimeBuilder.mk y mo d ho mi sec) mx hmx hd1 hd2 hh hm2 hs2]
  rfl

theorem allAsciiB_iff {s : List Char} :
    allAsciiB s = true ↔ ∀ c ∈ s, charBytes c = 1 := by
  simp [allAsciiB, List.all_eq_true]

theorem noPB_tail {a : Char} {l : List Char} (h : noPB (a :: l) = true) :
    noPB l = true := by
  cases l with
  | nil => rfl
  | cons b rest =>
    simp only [noPB, Bool.and_eq_true] at h
    exact h.2

theorem noPB_drop {l : List Char} (h : noPB l = true) (k : Nat) :
    noPB (l.drop k) = true := by
  induction k generalizing l with
  | zero => simpa using h
  | succ j ih =>
    cases l with
    | nil => simpa using h
    | cons a rest =>
      simp only [List.drop_succ_cons]
      exact ih (noPB_tail h)

theorem noPB_head {a b : Char} {l : List Char} (h : noPB (a :: b :: l) = true) :
    ¬ (a = '%' ∧ b = 'B') := by
  simp only [noPB, Bool.and_eq_true, Bool.not_eq_eq_eq_not, Bool.not_true,
    Bool.and_eq_false_iff] at h
  intro hc
  rcases h.1 with h1 | h1 <;> simp [hc.1, hc.2] at h1

theorem specifierToken_written {ident : Char}
    (h : specifierToken ident = some .WrittenMonth) : ident = 'B' := by
  simp only [specifierToken] at h
  split_ifs at h <;> simp_all

theorem specifierToken_not_hour {ident : Char} :
    specifierToken ident ≠ some .Hour := by
  simp only [specifierToken]
  split_ifs <;> simp

theorem lexNext_item_rest {s : LexerState} {t : Token} {s2 : LexerState}
    (h : lexNext s = .item t s2) : ∃ k, 1 ≤ k ∧ s2.rest = s.rest.drop k := by
  cases hr : s.rest with
  | nil => simp [lexNext, hr] at h
  | cons next chars =>
    simp only [lexNext, hr] at h
    by_cases hp : next = '%'
    · rw [if_pos hp] at h
      cases chars with
      | nil => exact LexStep.noConfusion h
      | cons ident rest2 =>
        dsimp only at h
        by_cases hw : charBytes ident = 1
        · rw [if_pos hw] at h
          cases hspec : specifierToken ident with
          | some tk =>
            rw [hspec] at h
            dsimp only at h
            injection h with h1 h2
            subst h2
            exact ⟨2, by omega, rfl⟩
          | none =>
            rw [hspec] at h
            dsimp only at h
            by_cases hws : isAsciiWs ident = true
            · rw [if_pos hws] at h
              exact LexStep.noConfusion h
            · rw [if_neg hws] at h
              exact LexStep.noConfusion h
        · rw [if_neg hw] at h
          exact LexStep.noConfusion h
    · rw [if_neg hp] at h
      injection h with h1 h2
      subst h2
      exact ⟨(next :: List.takeWhile (fun c => c ≠ '%') chars).length, by simp, rfl⟩

theorem lexNext_item_token {s : LexerState} {t : Token} {s2 : LexerState}
    (hpb : noPB s.rest = true) (h : lexNext s = .item t s2) :
    t ≠ .WrittenMonth ∧ t ≠ .Hour := by
  cases hr : s.rest with
  | nil => simp [lexNext, hr] at h
  | cons next chars =>
    simp only [lexNext, hr] at h
    by_cases hp : next = '%'
    · rw [if_pos hp] at h
      cases chars with
      | nil => exact LexStep.noConfusion h
      | cons ident rest2 =>
        dsimp only at h
        by_cases hw : charBytes ident = 1
        · rw [if_pos hw] at h
          cases hspec : specifierToken ident with
          | some tk =>
            rw [hspec] at h
            dsimp only at h
            injection h with h1 h2
            subst h1
            constructor
            · intro hwm
              subst hwm
              have hB : ident = 'B' := specifierToken_written hspec
              rw [hr] at hpb
              exact noPB_head hpb ⟨hp, hB⟩
            · intro hho
              subst hho
              exact specifierToken_not_hour hspec
          | none =>
            rw [hspec] at h
            dsimp only at h
            by_cases hws : isAsciiWs ident = true
            · rw [if_pos hws] at h
              exact LexStep.noConfusion h
            · rw [if_neg hws] at h
              exact LexStep.noConfusion h
        · rw [if_neg hw] at h
          exact LexStep.noConfusion h
    · rw [if_neg hp] at h
      injection h with h1 h2
      subst h1
      exact ⟨by intro hc; exact Token.noConfusion hc, by intro hc; exact Token.noConfusion hc⟩

theorem lexNext_not_panicL {s : LexerState}
    (hascii : ∀ c ∈ s.rest, charBytes c = 1) : lexNext s ≠ .panicL := by
  intro h
  cases hr : s.rest with
  | nil => simp [lexNext, hr] at h
  | cons next chars =>
    simp only [lexNext, hr] at h
    by_cases hp : next = '%'
    · rw [if_pos hp] at h
      cases chars with
      | nil => exact LexStep.noConfusion h
      | cons ident rest2 =>
        dsimp only at h
        have hw : charBytes ident = 1 := hascii ident (by rw [hr]; simp)
        rw [if_pos hw] at h
        cases hspec : specifierToken ident with
        | some tk =>
          rw [hspec] at h
          dsimp only at h
          exact LexStep.noConfusion h
        | none =>
          rw [hspec] at h
          dsimp only at h
          by_cases hws : isAsciiWs ident = true
          · rw [if_pos hws] at h
            exact LexStep.noConfusion h
          · rw [if_neg hws] at h
            exact LexStep.noConfusion h
    · rw [if_neg hp] at h
      exact LexStep.noConfusion h

theorem splitAtBytes_ascii {s : List Char} (hascii : ∀ c ∈ s, charBytes c = 1) :
    ∀ {n : Nat}, n ≤ s.length → splitAtBytes s n = some (s.take n, s.drop n) := by
  induction s with
  | nil =>
    intro n hn
    have hn0 : n = 0 := by simpa using hn
    subst hn0
    simp [splitAtBytes]
  | cons c cs ih =>
    intro n hn
    cases n with
    | zero => simp [splitAtBytes]
    | succ m =>
      have hc : charBytes c = 1 := hascii c (by simp)
      simp only [splitAtBytes, hc]
      rw [if_pos (by omega)]
      have hm : m + 1 - 1 = m := by omega
      rw [hm, ih (fun x hx => hascii x (by simp [hx])) (by simpa using hn)]
      simp

theorem parse_digits_not_panic {input : List Char} {w : Nat}
    (hascii : ∀ c ∈ input, charBytes c = 1) : parse_digits input w ≠ .panic := by
  simp only [parse_digits]
  split
  · simp
  · rename_i hlong
    rw [utf8Len_eq_length hascii] at hlong
    rw [splitAtBytes_ascii hascii (by omega)]
    cases hpu : parseUsizeChars (input.take w) with
    | none => simp [hpu]
    | some n => simp [hpu]

theorem stripPfx_some_mem {p s r : List Char} (h : stripPfx p s = some r) :
    ∀ c ∈ r, c ∈ s := by
  induction p generalizing s with
  | nil =>
    simp only [stripPfx, Option.some.injEq] at h
    subst h
    exact fun c hc => hc
  | cons x xs ih =>
    cases s with
    | nil => simp [stripPfx] at h
    | cons y ys =>
      simp only [stripPfx] at h
      split at h
      · intro c hc
        exact List.mem_cons_of_mem y (ih h c hc)
      · simp at h

theorem stepToken_not_panic {orig : List Char} {t : Token} {input : List Char}
    {b : DatetimeBuilder} (hwm : t ≠ .WrittenMonth) (hho : t ≠ .Hour)
    (hascii : ∀ c ∈ input, charBytes c = 1) :
    stepToken orig t input b ≠ .panic := by
  cases t with
  | WrittenMonth => exact absurd rfl hwm
  | Hour => exact absurd rfl hho
  | FullYear =>
    simp only [stepToken]
    cases hp : parse_digits input 4 with
    | ok v => cases v; simp
    | err e => simp
    | panic => exact absurd hp (parse_digits_not_panic hascii)
  | HalfYear =>
    simp only [stepToken]
    cases hp : parse_digits input 2 with
    | ok v => cases v; simp
    | err e => simp
    | panic => exact absurd hp (parse_digits_not_panic hascii)
  | FullMonth =>
    simp only [stepToken]
    cases hp : parse_digits input 2 with
    | ok v => cases v; simp
    | err e => simp
    | panic => exact absurd hp (parse_digits_not_panic hascii)
  | Day =>
    simp only [stepToken]
    cases hp : parse_digits input 2 with
    | ok v => cases v; simp
    | err e => simp
    | panic => exact absurd hp (parse_digits_not_panic hascii)
  | TwelveHourDay =>
    simp only [stepToken]
    cases hp : parse_digits input 2 with
    | ok v => cases v; simp
    | err e => simp
    | panic => exact absurd hp (parse_digits_not_panic hascii)
  | TwentyFourHourDay =>
    simp only [stepToken]
    cases hp : parse_digits input 2 with
    | ok v => cases v; simp
    | err e => simp
    | panic => exact absurd hp (parse_digits_not_panic hascii)
  | Minute =>
    simp only [stepToken]
    cases hp : parse_digits input 2 with
    | ok v => cases v; simp
    | err e => simp
    | panic => exact absurd hp (parse_digits_not_panic hascii)
  | Second =>
    simp only [stepToken]
    cases hp : parse_digits input 2 with
    | ok v => cases v; simp
    | err e => simp
    | panic => exact absurd hp (parse_digits_not_panic hascii)
  | AmOrPm =>
    simp only [stepToken]
    split_ifs <;> simp
  | Literal pat =>
    simp only [stepToken]
    cases hp : stripPfx pat input <;> simp

theorem stepToken_ok_mem {orig : List Char} {t : Token} {input : List Char}
    {b : DatetimeBuilder} {input2 : List Char} {b2 : DatetimeBuilder}
    (h : stepToken orig t input b = .ok (input2, b2)) :
    ∀ c ∈ input2, c ∈ input := by
  cases t with
  | WrittenMonth => simp [stepToken] at h
  | Hour => simp [stepToken] at h
  | AmOrPm =>
    simp only [stepToken] at h
    split_ifs at h <;>
      first
      | exact PResult.noConfusion h
      | (simp only [PResult.ok.injEq, Prod.mk.injEq] at h
         intro c hc
         rw [← h.1] at hc
         exact List.mem_of_mem_drop hc)
  | Literal pat =>
    simp only [stepToken] at h
    split at h
    · rename_i r hr
      simp only [PResult.ok.injEq, Prod.mk.injEq] at h
      intro c hc
      rw [← h.1] at hc
      exact stripPfx_some_mem hr c hc
    · simp at h
  | FullYear =>
    simp only [stepToken] at h
    split at h
    · rename_i v rest hp
      simp only [PResult.ok.injEq, Prod.mk.injEq] at h
      obtain ⟨part, hsp, _⟩ := parse_digits_ok_shape hp
      obtain ⟨heq, _⟩ := splitAtBytes_some hsp
      intro c hc
      rw [← h.1] at hc
      rw [heq]
      exact List.mem_append_right part hc
    · simp at h
    · simp at h
  | HalfYear =>
    simp only [stepToken] at h
    split at h
    · rename_i v rest hp
      simp only [PResult.ok.injEq, Prod.mk.injEq] at h
      obtain ⟨part, hsp, _⟩ := parse_digits_ok_shape hp
      obtain ⟨heq, _⟩ := splitAtBytes_some hsp
      intro c hc
      rw [← h.1] at hc
      rw [heq]
      exact List.mem_append_right part hc
    · simp at h
    · simp at h
  | FullMonth =>
    simp only [stepToken] at h
    split at h
    · rename_i v rest hp
      simp only [PResult.ok.injEq, Prod.mk.injEq] at h
      obtain ⟨part, hsp, _⟩ := parse_digits_ok_shape hp
      obtain ⟨heq, _⟩ := splitAtBytes_some hsp
      intro c hc
      rw [← h.1] at hc
      rw [heq]
      exact List.mem_append_right part hc
    · simp at h
    · simp at h
  | Day =>
    simp only [stepToken] at h
    split at h
    · rename_i v rest hp
      simp only [PResult.ok.injEq, Prod.mk.injEq] at h
      obtain ⟨part, hsp, _⟩ := parse_digits_ok_shape hp
      obtain ⟨heq, _⟩ := splitAtBytes_some hsp
      intro c hc
      rw [← h.1] at hc
      rw [heq]
      exact List.mem_append_right part hc
    · simp at h
    · simp at h
  | TwelveHourDay =>
    simp only [stepToken] at h
    split at h
    · rename_i v rest hp
      simp only [PResult.ok.injEq, Prod.mk.injEq] at h
      obtain ⟨part, hsp, _⟩ := parse_digits_ok_shape hp
      obtain ⟨heq, _⟩ := splitAtBytes_some hsp
      intro c hc
      rw [← h.1] at hc
      rw [heq]
      exact List.mem_append_right part hc
    · simp at h
    · simp at h
  | TwentyFourHourDay =>
    simp only [stepToken] at h
    split at h
    · rename_i v rest hp
      simp only [PResult.ok.injEq, Prod.mk.injEq] at h
      obtain ⟨part, hsp, _⟩ := parse_digits_ok_shape hp
      obtain ⟨heq, _⟩ := splitAtBytes_some hsp
      intro c hc
      rw [← h.1] at hc
      rw [heq]
      exact List.mem_append_right part hc
    · simp at h
    · simp at h
  | Minute =>
    simp only [stepToken] at h
    split at h
    · rename_i v rest hp
      simp only [PResult.ok.injEq, Prod.mk.injEq] at h
      obtain ⟨part, hsp, _⟩ := parse_digits_ok_shape hp
      obtain ⟨heq, _⟩ := splitAtBytes_some hsp
      intro c hc
      rw [← h.1] at hc
      rw [heq]
      exact List.mem_append_right part hc
    · simp at h
    · simp at h
  | Second =>
    simp only [stepToken] at h
    split at h
    · rename_i v rest hp
      simp only [PResult.ok.injEq, Prod.mk.injEq] at h
      obtain ⟨part, hsp, _⟩ := parse_digits_ok_shape hp
      obtain ⟨heq, _⟩ := splitAtBytes_some hsp
      intro c hc
      rw [← h.1] at hc
      rw [heq]
      exact List.mem_append_right part hc
    · simp at h
    · simp at h

theorem interpGo_no_panic {orig : List Char} : ∀ (f : Nat) (s : LexerState)
    (input : List Char) (b : DatetimeBuilder),
    s.rest.length < f →
    (∀ c ∈ s.rest, charBytes c = 1) →
    noPB s.rest = true →
    (∀ c ∈ input, charBytes c = 1) →
    interpGo orig f s input b ≠ .panic := by
  intro f
  induction f with
  | zero =>
    intro s input b hf
    omega
  | succ g ih =>
    intro s input b hf hra hpb hia
    simp only [interpGo]
    cases hlex : lexNext s with
    | done =>
      dsimp only
      cases build b <;> simp [liftBuild]
    | panicL => exact absurd hlex (lexNext_not_panicL hra)
    | lexErr e =>
      dsimp only
      simp
    | item t s2 =>
      dsimp only
      cases hstep : stepToken orig t input b with
      | ok v =>
        obtain ⟨input2, b2⟩ := v
        dsimp only
        obtain ⟨k, hk1, hk2⟩ := lexNext_item_rest hlex
        refine ih s2 input2 b2 ?_ ?_ ?_ ?_
        · have := lexNext_item_lt hlex
          omega
        · intro c hc
          rw [hk2] at hc
          exact hra c (List.mem_of_mem_drop hc)
        · rw [hk2]
          exact noPB_drop hpb k
        · exact fun c hc => hia c (stepToken_ok_mem hstep c hc)
      | err e =>
        dsimp only
        simp
      | panic =>
        obtain ⟨hwm, hho⟩ := lexNext_item_token hpb hlex
        exact absurd hstep (stepToken_not_panic hwm hho hia)

theorem tryGuessLoop_found_iff : ∀ (fs : List (List Char)) (date : List Char)
    (d : Datetime), tryGuessLoop fs date = .found d ↔
      ∃ pre f suf, fs = pre ++ f :: suf ∧ parse_datetime date f = .ok d ∧
        ∀ g ∈ pre, isErrR (parse_datetime date g) = true := by
  intro fs
  induction fs with
  | nil =>
    intro date d
    simp only [tryGuessLoop]
    constructor
    · intro h
      exact GuessResult.noConfusion h
    · rintro ⟨pre, f, suf, habs, -, -⟩
      exact absurd habs (by simp)
  | cons f0 fs ih =>
    intro date d
    simp only [tryGuessLoop]
    cases hp : parse_datetime date f0 with
    | ok d0 =>
      dsimp only
      constructor
      · intro h
        injection h with h1
        subst h1
        exact ⟨[], f0, fs, rfl, hp, by simp⟩
      · rintro ⟨pre, f, suf, hsplit, hok, herr⟩
        cases pre with
        | nil =>
          simp only [List.nil_append] at hsplit
          injection hsplit with e1 e2
          subst e1
          rw [hp] at hok
          injection hok with e3
          rw [e3]
        | cons g gs =>
          simp only [List.cons_append] at hsplit
          injection hsplit with e1 e2
          subst e1
          have hg := herr f0 (List.mem_cons_self f0 gs)
          rw [hp] at hg
          simp [isErrR] at hg
    | err e =>
      dsimp only
      rw [ih date d]
      constructor
      · rintro ⟨pre, f, suf, hsplit, hok, herr⟩
        refine ⟨f0 :: pre, f, suf, by rw [hsplit]; rfl, hok, ?_⟩
        intro g hg
        rcases List.mem_cons.mp hg with hg | hg
        · subst hg
          simp [isErrR, hp]
        · exact herr g hg
      · rintro ⟨pre, f, suf, hsplit, hok, herr⟩
        cases pre with
        | nil =>
          simp only [List.nil_append] at hsplit
          injection hsplit with e1 e2
          subst e1
          rw [hp] at hok
          exact PResult.noConfusion hok
        | cons g gs =>
          simp only [List.cons_append] at hsplit
          injection hsplit with e1 e2
          exact ⟨gs, f, suf, e2, hok, fun x hx => herr x (by simp [hx])⟩
    | panic =>
      dsimp only
      constructor
      · intro h
        exact GuessResult.noConfusion h
      · rintro ⟨pre, f, suf, hsplit, hok, herr⟩
        cases pre with
        | nil =>
          simp only [List.nil_append] at hsplit
          injection hsplit with e1 e2
          subst e1
          rw [hp] at hok
          exact PResult.noConfusion hok
        | cons g gs =>
          simp only [List.cons_append] at hsplit
          injection hsplit with e1 e2
          subst e1
          have hg := herr f0 (List.mem_cons_self f0 gs)
          rw [hp] at hg
          simp [isErrR] at hg

/-! ## Claim theorems -/

/-- C1: every `Datetime` produced by `build` (and hence by every successful
`parse_datetime`) satisfies `1 ≤ month ≤ 12`, `1 ≤ day ≤ days_in_month
(year, month)`, `hour ≤ 23`, `minute ≤ 59`, `second ≤ 59`, where
`days_in_month` gives February 29 days exactly when the year is a leap year
(divisible by 4 and not by 100, or divisible by 400) and otherwise follows
the standard 31/30-day table. -/
theorem C1_build_invariants :
    (∀ b d, build b = .ok d → validDt d) ∧
    (∀ input fmt d, parse_datetime input fmt = .ok d → validDt d) ∧
    (∀ y, days_in_month y 2 =
      some (if (y % 4 = 0 ∧ y % 100 ≠ 0) ∨ y % 400 = 0 then 29 else 28)) ∧
    (∀ y m, m = 1 ∨ m = 3 ∨ m = 5 ∨ m = 7 ∨ m = 8 ∨ m = 10 ∨ m = 12 →
      days_in_month y m = some 31) ∧
    (∀ y m, m = 4 ∨ m = 6 ∨ m = 9 ∨ m = 11 → days_in_month y m = some 30) := by
  have key : ∀ b d, build b = .ok d → validDt d := by
    intro b d h
    obtain ⟨e1, e2, e3, e4, e5, e6, ⟨mx, hmx, hd1, hd2⟩, hh, hmi, hs⟩ := build_ok_iff h
    obtain ⟨m1, m2, m3⟩ := days_in_month_bounds hmx
    refine ⟨by omega, by omega, by omega, ⟨mx, ?_, by omega⟩, by omega, by omega, by omega⟩
    rw [e1, e2]
    exact hmx
  refine ⟨key, ?_, ?_, ?_, ?_⟩
  · intro input fmt d h
    obtain ⟨b2, hb⟩ := interpGo_ok_build (fmt.length + 1) (mkLexer fmt) input
      DatetimeBuilder.default d h
    exact key b2 d hb
  · intro y
    have hleap : is_leap_year y = true ↔ (y % 4 = 0 ∧ y % 100 ≠ 0) ∨ y % 400 = 0 := by
      simp [is_leap_year]
    simp only [days_in_month]
    rw [if_neg (by omega), if_neg (by omega), if_pos (by trivial)]
    by_cases hl : (y % 4 = 0 ∧ y % 100 ≠ 0) ∨ y % 400 = 0
    · rw [if_pos hl, if_pos (hleap.mpr hl)]
    · rw [if_neg hl, if_neg (fun hc => hl (hleap.mp hc))]
  · intro y m hm
    simp only [days_in_month]
    rw [if_pos hm]
  · intro y m hm
    simp only [days_in_month]
    rw [if_neg (by omega), if_pos hm]

/-- Witness for C1: the invariants hold for the concrete leap-year datetime
2024-02-29 23:59:59 built from the builder. -/
theorem C1_build_invariants_witness : validDt (Datetime.mk 2024 2 29 23 59 59) :=
  C1_build_invariants.1 (DatetimeBuilder.mk 2024 2 29 23 59 59)
    (Datetime.mk 2024 2 29 23 59 59) (by rfl)

/-- C2 counterexample: when the remaining input starts with the two-byte
character 'é', the mismatch error carries only the first 2 BYTES of the
input (here the single character 'é'), not the next 2 characters. -/
theorem C2_next_two_chars_cex :
    stepToken [] .AmOrPm ['é', '!'] DatetimeBuilder.default =
      .err (.interp (.WrongSequence amOrPmExpected ['é'] [])) ∧
    (['é'] : List Char) ≠ (['é', '!'] : List Char).take 2 := by
  refine ⟨by rfl, by decide⟩

/-- C2 (amended): the AmOrPm step consumes exactly the 2 characters "PM" or
"AM"; on PM it adds 12 to an hour < 12 and otherwise leaves it unchanged;
on AM it resets hour 12 to 0 and otherwise leaves it unchanged; otherwise
it fails with WrongSequence carrying expected "AM or PM" and the next 2
bytes of the input when they end at a character boundary (the whole
remaining input otherwise). -/
theorem C2_am_pm_step (input : List Char) (b : DatetimeBuilder) (orig : List Char) :
    (∀ rest, input = 'P' :: 'M' :: rest →
      stepToken orig .AmOrPm input b =
        .ok (rest, if b.hour < 12 then b.setHour (b.hour + 12) else b)) ∧
    (∀ rest, input = 'A' :: 'M' :: rest →
      stepToken orig .AmOrPm input b =
        .ok (rest, if b.hour = 12 then b.setHour 0 else b)) ∧
    (startsWith2 'P' 'M' input = false → startsWith2 'A' 'M' input = false →
      stepToken orig .AmOrPm input b =
        .err (.interp (.WrongSequence amOrPmExpected ((byteGet input 2).getD input) orig))) := by
  refine ⟨?_, ?_, ?_⟩
  · rintro rest rfl
    have hs : startsWith2 'P' 'M' ('P' :: 'M' :: rest) = true := rfl
    by_cases hh : b.hour < 12
    · simp [stepToken, hs, hh]
    · simp [stepToken, hs, hh]
  · rintro rest rfl
    have hp : startsWith2 'P' 'M' ('A' :: 'M' :: rest) = false := rfl
    have ha : startsWith2 'A' 'M' ('A' :: 'M' :: rest) = true := rfl
    by_cases hh : b.hour = 12
    · simp [stepToken, hp, ha, hh]
    · simp [stepToken, hp, ha, hh]
  · intro h1 h2
    simp [stepToken, h1, h2]

/-- Witness for C2 at the concrete non-matching input "XY". -/
theorem C2_am_pm_step_witness :
    stepToken [] .AmOrPm ['X', 'Y'] DatetimeBuilder.default =
      .err (.interp (.WrongSequence amOrPmExpected
        ((byteGet ['X', 'Y'] 2).getD ['X', 'Y']) [])) :=
  (C2_am_pm_step ['X', 'Y'] DatetimeBuilder.default []).2.2 (by rfl) (by rfl)

/-- C3: whenever the interpreter's HalfYear step succeeds, it has consumed
exactly the next 2 input characters, parsed them as a non-negative base-10
integer y, and stored year = y + 2000 when y < 25 and y + 1900 otherwise. -/
theorem C3_half_year_pivot (input : List Char) (b : DatetimeBuilder)
    (orig : List Char) (out : List Char × DatetimeBuilder)
    (h : stepToken orig .HalfYear input b = .ok out) :
    ∃ y, parseUsizeChars (input.take 2) = some y ∧
      out = (input.drop 2, b.setYear (if y < 25 then y + 2000 else y + 1900)) := by
  simp only [stepToken] at h
  split at h
  · rename_i y rest hp
    simp only [PResult.ok.injEq] at h
    obtain ⟨part, hsp, hpu⟩ := parse_digits_ok_shape hp
    have hascii := parseUsizeChars_ascii hpu
    obtain ⟨heq, hlen⟩ := splitAtBytes_some hsp
    have hplen : part.length = 2 := by
      rw [← utf8Len_eq_length hascii]
      exact hlen
    refine ⟨y, ?_, ?_⟩
    · rw [heq, ← hplen, List.take_left]
      exact hpu
    · rw [← h, heq, ← hplen, List.drop_left]
  · simp at h
  · simp at h

/-- Witness for C3 at the concrete input "99" (pivot to 1999). -/
theorem C3_half_year_pivot_witness :
    ∃ y, parseUsizeChars ((['9', '9'] : List Char).take 2) = some y ∧
      ((([] : List Char), DatetimeBuilder.default.setYear 1999) :
          List Char × DatetimeBuilder) =
        ((['9', '9'] : List Char).drop 2,
          DatetimeBuilder.default.setYear (if y < 25 then y + 2000 else y + 1900)) :=
  C3_half_year_pivot ['9', '9'] DatetimeBuilder.default []
    (([] : List Char), DatetimeBuilder.default.setYear 1999) (by rfl)

/-- C4 counterexample: try_guess "15/10/2023" succeeds, but via the earlier
candidate "%y/%m/%d" (year "15" pivoted to 2015, month 10, day "20" from
the first two digits of "2023", trailing input ignored), so it does not
recover year 2023, month 10, day 15. -/
theorem C4_try_guess_cex :
    try_guess (("15/10/2023").data) = .found (Datetime.mk 2015 10 20 0 0 0) ∧
    Datetime.mk 2015 10 20 0 0 0 ≠ Datetime.mk 2023 10 15 0 0 0 := by
  decide

/-- C4 (amended): try_guess tries its fixed candidate-pattern list in order
and returns the first successful parse; try_guess "not a date" returns
nothing; try_guess "2023-10-15" recovers 2023-10-15; try_guess "15/10/2023"
succeeds but recovers year 2015, month 10, day 20 (first match "%y/%m/%d"
with trailing input ignored). -/
theorem C4_try_guess_first_success :
    (∀ date d, try_guess date = .found d ↔
      ∃ pre f suf, COMMON_FORMATS = pre ++ f :: suf ∧
        parse_datetime date f = .ok d ∧
        ∀ g ∈ pre, isErrR (parse_datetime date g) = true) ∧
    try_guess (("not a date").data) = .nothing ∧
    try_guess (("2023-10-15").data) = .found (Datetime.mk 2023 10 15 0 0 0) ∧
    try_guess (("15/10/2023").data) = .found (Datetime.mk 2015 10 20 0 0 0) := by
  refine ⟨?_, by decide, by decide, by decide⟩
  intro date d
  exact tryGuessLoop_found_iff COMMON_FORMATS date d

/-- Witness for C4: the first-success characterization instantiated at
"2023-10-15", whose winning candidate is the second one, "%Y-%m-%d". -/
theorem C4_try_guess_first_success_witness :
    try_guess (("2023-10-15").data) = .found (Datetime.mk 2023 10 15 0 0 0) :=
  (C4_try_guess_first_success.1 (("2023-10-15").data)
      (Datetime.mk 2023 10 15 0 0 0)).mpr
    ⟨[("%Y/%m/%d").data], ("%Y-%m-%d").data,
      [("%Y/%d/%m").data, ("%Y/%d/%m").data, ("%y/%m/%d").data, ("%y-%m-%d").data,
       ("%y/%d/%m").data, ("%y/%d/%m").data, ("%H:%M:%S").data, ("%Hh:%Mm:%Ss").data,
       ("%H %p:%M:%S").data, ("%H %p:%M:%S").data, ("%H:%M").data, ("%Hh:%Mm").data,
       ("%H:%M %p").data],
      by decide, by decide, by decide⟩

/-- C5 counterexample: year 1 satisfies the claim's hypotheses
(1 ≤ month ≤ 12, 1 ≤ day ≤ days_in_month), but its Display rendering is
"01/01/01 00:00:00" (the year is printed with the same {:02} format), and
parsing it back with "%d/%m/%Y %H:%M:%S" fails: the 4-character year slice
"01 0" is not a valid integer. -/
theorem C5_roundtrip_cex :
    (1 : Nat) ≤ 12 ∧ days_in_month 1 1 = some 31 ∧ (1 : Nat) ≤ 31 ∧
    parse_datetime (displayDatetime (Datetime.mk 1 1 1 0 0 0)) fmtDMY =
      .err .intErr := by
  decide

/-- C5 (amended): for every year with four decimal digits (1000–9999) and
every calendar-valid month, day, hour, minute and second, rendering the
Datetime via Display and parsing the rendered string with the pattern
"%d/%m/%Y %H:%M:%S" succeeds and recovers exactly the original fields. -/
theorem C5_roundtrip (y mo d ho mi sec mx : Nat)
    (hy1 : 1000 ≤ y) (hy2 : y ≤ 9999)
    (hm1 : 1 ≤ mo) (hm2 : mo ≤ 12)
    (hmx : days_in_month y mo = some mx) (hd1 : 1 ≤ d) (hd2 : d ≤ mx)
    (hh : ho ≤ 23) (hmi : mi ≤ 59) (hs : sec ≤ 59) :
    parse_datetime (displayDatetime (Datetime.mk y mo d ho mi sec)) fmtDMY =
      .ok (Datetime.mk y mo d ho mi sec) :=
  parse_display_roundtrip y mo d ho mi sec mx hy1 hy2 hmx hd1 hd2 hh hmi hs

/-- Witness for C5 at the concrete datetime 2023-10-15 14:30:25. -/
theorem C5_roundtrip_witness :
    parse_datetime (displayDatetime (Datetime.mk 2023 10 15 14 30 25)) fmtDMY =
      .ok (Datetime.mk 2023 10 15 14 30 25) :=
  C5_roundtrip 2023 10 15 14 30 25 31 (by decide) (by decide) (by decide)
    (by decide) (by decide) (by decide) (by decide) (by decide) (by decide)
    (by decide)

/-- C6: evaluation at the failing input: build with minute = 75 (all other
fields valid) reports InvalidValue with field Token.Day — whose display
text is "Day" — and expected "0-60", instead of naming the minute field. -/
theorem C6_minute_error_names_day :
    build (DatetimeBuilder.mk 1900 1 1 0 75 0) =
      .error (.InvalidValue msgZeroSixty .Day (natDigits 75) none) ∧
    Token.Day ≠ Token.Minute := by
  refine ⟨by rfl, by decide⟩

/-- C7 counterexample: parsing "23-5-15" with "%Y-%m-%d" does fail, but not
with an InputTooShort error: the remaining input has 7 ≥ 4 bytes, so
parse_digits takes the 4-character slice "23-5" and the integer parse
fails instead. -/
theorem C7_error_class_cex :
    isErrR (parse_datetime (("23-5-15").data) (("%Y-%m-%d").data)) = true ∧
    isInputTooShortR (parse_datetime (("23-5-15").data) (("%Y-%m-%d").data)) =
      false := by
  decide

/-- C7 (amended): parsing "23-5-15" with "%Y-%m-%d" fails with the
numeric-parse (integer) error: the year field consumes the 4-character
slice "23-5", which is not a valid non-negative integer. -/
theorem C7_numeric_parse_error :
    parse_datetime (("23-5-15").data) (("%Y-%m-%d").data) = .err .intErr := by
  decide

/-- C8: evaluation exhibiting the span drift.  In "a% " the failing '%' is
at byte offset 1 (after the 1-byte literal "a"), but the InvalidWhitespace
span starts at 2, because a literal run adds its first character's bytes
twice to the byte counter.  In "%Y%Z" the failing '%' is at byte offset 2,
but the InvalidFormat span starts at 1, because a specifier's identifier
byte is never added to the counter. -/
theorem C8_span_offsets_drift :
    lexNext (mkLexer (("a% ").data)) =
      .item (.Literal ['a']) (LexerState.mk (("a% ").data) (("% ").data) 2) ∧
    lexNext (LexerState.mk (("a% ").data) (("% ").data) 2) =
      .lexErr (.InvalidWhitespace (2, 2) (("a% ").data)) ∧
    utf8Len ['a'] = 1 ∧ (2 : Nat) ≠ 1 ∧
    lexNext (mkLexer (("%Y%Z").data)) =
      .item .FullYear (LexerState.mk (("%Y%Z").data) (("%Z").data) 1) ∧
    lexNext (LexerState.mk (("%Y%Z").data) (("%Z").data) 1) =
      .lexErr (.InvalidFormat (("%Y%Z").data) (1, 2)) ∧
    utf8Len ['%', 'Y'] = 2 ∧ (1 : Nat) ≠ 2 := by
  decide

/-- C9 counterexample: the interpreter panics on multi-byte input (the
2-byte cut of a numeric field falls inside the 3-byte character '€') and on
a multi-byte character after '%' in the pattern (the slice rest[1..] is not
on a character boundary). -/
theorem C9_panic_cex :
    parse_datetime ['€'] (("%m").data) = .panic ∧
    parse_datetime [] ['%', 'é'] = .panic := by
  decide

/-- C9 (amended): for inputs and format patterns consisting only of
single-byte (ASCII) characters, with the format free of the unimplemented
"%B" specifier, parse_datetime is total: it always returns ok or err and
never panics. -/
theorem C9_ascii_total (input fmt : List Char)
    (hi : allAsciiB input = true) (hf : allAsciiB fmt = true)
    (hb : noPB fmt = true) : parse_datetime input fmt ≠ .panic := by
  have hi2 := allAsciiB_iff.mp hi
  have hf2 := allAsciiB_iff.mp hf
  exact interpGo_no_panic (fmt.length + 1) (mkLexer fmt) input
    DatetimeBuilder.default (Nat.lt_succ_self fmt.length) hf2 hb hi2

/-- Witness for C9 at the concrete input "2023-10-15" and format
"%Y-%m-%d". -/
theorem C9_ascii_total_witness :
    parse_datetime (("2023-10-15").data) (("%Y-%m-%d").data) ≠ .panic :=
  C9_ascii_total (("2023-10-15").data) (("%Y-%m-%d").data) (by decide)
    (by decide) (by decide)

/-- C10: every builder setter stores its raw argument unchanged in its
named field, leaves the five other fields untouched, and (being a total
function) never rejects a value; range checks happen only in build. -/
theorem C10_setters_frame (b : DatetimeBuilder) (n : Nat) :
    ((b.setYear n).year = n ∧ (b.setYear n).month = b.month ∧
      (b.setYear n).day = b.day ∧ (b.setYear n).hour = b.hour ∧
      (b.setYear n).minute = b.minute ∧ (b.setYear n).second = b.second) ∧
    ((b.setMonth n).month = n ∧ (b.setMonth n).year = b.year ∧
      (b.setMonth n).day = b.day ∧ (b.setMonth n).hour = b.hour ∧
      (b.setMonth n).minute = b.minute ∧ (b.setMonth n).second = b.second) ∧
    ((b.setDay n).day = n ∧ (b.setDay n).year = b.year ∧
      (b.setDay n).month = b.month ∧ (b.setDay n).hour = b.hour ∧
      (b.setDay n).minute = b.minute ∧ (b.setDay n).second = b.second) ∧
    ((b.setHour n).hour = n ∧ (b.setHour n).year = b.year ∧
      (b.setHour n).month = b.month ∧ (b.setHour n).day = b.day ∧
      (b.setHour n).minute = b.minute ∧ (b.setHour n).second = b.second) ∧
    ((b.setMinute n).minute = n ∧ (b.setMinute n).year = b.year ∧
      (b.setMinute n).month = b.month ∧ (b.setMinute n).day = b.day ∧
      (b.setMinute n).hour = b.hour ∧ (b.setMinute n).second = b.second) ∧
    ((b.setSecond n).second = n ∧ (b.setSecond n).year = b.year ∧
      (b.setSecond n).month = b.month ∧ (b.setSecond n).day = b.day ∧
      (b.setSecond n).hour = b.hour ∧ (b.setSecond n).minute = b.minute) :=
  ⟨⟨rfl, rfl, rfl, rfl, rfl, rfl⟩, ⟨rfl, rfl, rfl, rfl, rfl, rfl⟩,
   ⟨rfl, rfl, rfl, rfl, rfl, rfl⟩, ⟨rfl, rfl, rfl, rfl, rfl, rfl⟩,
   ⟨rfl, rfl, rfl, rfl, rfl, rfl⟩, ⟨rfl, rfl, rfl, rfl, rfl, rfl⟩⟩
